import Mathlib

/-!
Shallow embedding of the logwatcher2 library (src/src/lib.rs).

The library is a single stateful file tailer.  Its state (struct LogWatcher)
holds the watched path, the inode captured at open time, a byte cursor pos,
a buffered reader over the open file handle, and a finish flag.  The watch
loop repeatedly calls read_line; a non-empty read advances pos and delivers a
Line event (with newlines removed); a zero-byte read triggers the rotation
probe reopen_if_log_rotated; a failed read delivers the error to the consumer.
After every event the action returned by the consumer callback is applied by
handle_callback_action.

Embedding choices, each mirroring a line of the source:
  - File contents are lists of characters; inodes and I/O error values are
    natural numbers.  The watched path is implicit: every interaction with
    the path is recorded in the per-iteration input (IterIn below).
  - The buffered reader is modelled by the pair (readerInode, readerPos):
    which physical file the handle refers to and the byte offset the next
    read starts from.  The source re-seeks the reader to pos after every
    successful read and after every probe, so buffered read-ahead never
    survives an iteration; an exact offset is therefore a faithful model.
  - One iteration of the watch loop consumes one IterIn: the outcome of the
    read_line call (readErr), a snapshot of every file during the iteration
    (contents), the results of the successive File.open calls made by the
    rotation probe in this iteration (probes), and whether seeks succeed
    this iteration (seekOk).  The source unwraps every seek result inside
    the loop, so a failing seek is a panic, modelled by StepRes.panicked.
  - The probe loop in reopen_if_log_rotated retries until an open together
    with its metadata call succeeds; exhausting the finite probe trace
    models the retry loop still running (StepRes.hung).  The probe also
    counts its one-second sleeps so that backoff behaviour is visible.
  - The consumer callback is an arbitrary state machine
    cb : sigma -> Except IoErr LogWatcherEvent -> LogWatcherAction x sigma.
-/

namespace Logwatcher2

/-- Physical file identity, the ino field of the file metadata. -/
abbrev Inode := Nat

/-- Opaque OS level I/O error value, passed through unmodified. -/
abbrev IoErr := Nat

/-- Mirror of enum LogWatcherEvent in the source. -/
inductive LogWatcherEvent where
  | Line (content : List Char)
  | LogRotation
deriving DecidableEq

/-- Mirror of enum LogWatcherAction in the source. -/
inductive LogWatcherAction where
  | None
  | Finish
  | SeekToEnd
deriving DecidableEq

/-- Mirror of struct LogWatcher.  The filename field is implicit (probe
results for the path are supplied per iteration); the BufReader is modelled
by the pair readerInode, readerPos as explained in the file comment. -/
structure LogWatcher where
  inode : Inode
  pos : Nat
  readerPos : Nat
  readerInode : Inode
  finish : Bool
deriving DecidableEq

/-- Result of one File.open call (plus the follow-up metadata call) made by
the rotation probe: err nf is a failed open whose error kind is NotFound
exactly when nf is true; okF i m is a successful open of the file with
inode i whose metadata call succeeds exactly when m is true. -/
inductive OpenResult where
  | err (notFound : Bool)
  | okF (ino : Inode) (metaOk : Bool)
deriving DecidableEq

/-- Environment input consumed by one iteration of the watch loop. -/
structure IterIn where
  readErr : Option IoErr
  contents : Inode → List Char
  probes : List OpenResult
  seekOk : Bool

/-- Longest prefix of a character list up to and including the first
newline; the whole list if it holds no newline.  This is the chunk a
single BufRead.read_line call appends. -/
def takeLine : List Char → List Char
  | [] => []
  | c :: cs => if c = '\n' then ['\n'] else c :: takeLine cs

/-- Model of self.reader.read_line at offset p of the given contents:
returns the number of bytes consumed and the chunk read.  A read at or past
the end of the contents consumes zero bytes. -/
def read_line (content : List Char) (p : Nat) : Nat × List Char :=
  let l := takeLine (content.drop p)
  (l.length, l)

/-- Mirror of LogWatcher.register.  The input bundles the outcome of the
File.open call together with the metadata of the opened file: on error the
error is returned unchanged; on success the cursor and the reader offset are
set to the current file length and the inode is captured. -/
def register (openRes : Except IoErr (Inode × List Char)) : Except IoErr LogWatcher :=
  match openRes with
  | Except.error e => Except.error e
  | Except.ok (i, c) =>
      Except.ok { inode := i, pos := c.length, readerPos := c.length,
                  readerInode := i, finish := false }

/-- Mirror of LogWatcher.reopen_if_log_rotated, driven by the trace of open
results.  Returns none while the trace is exhausted (the source loops
forever retrying), otherwise the updated watcher, whether a rotation was
detected, and how many one-second sleeps were performed.  Note that a failed
open whose kind is not NotFound falls through the match in the source and
retries without sleeping. -/
def reopen_if_log_rotated (w : LogWatcher) : List OpenResult → Option (LogWatcher × Bool × Nat)
  | [] => none
  | OpenResult.err nf :: rest =>
      match reopen_if_log_rotated w rest with
      | none => none
      | some (w', r, n) => some (w', r, (if nf then 1 else 0) + n)
  | OpenResult.okF i mOk :: rest =>
      if mOk then
        if i ≠ w.inode then
          some ({ w with pos := 0, readerPos := 0, inode := i, readerInode := i }, true, 0)
        else
          some (w, false, 1)
      else
        match reopen_if_log_rotated w rest with
        | none => none
        | some (w', r, n) => some (w', r, 1 + n)

/-- Mirror of LogWatcher.handle_callback_action for the case where the seek
performed by SeekToEnd succeeds.  endPos is the current length of the file
the reader handle refers to; SeekToEnd moves the reader there and, exactly
as in the source, leaves pos unchanged. -/
def handle_callback_action (endPos : Nat) (w : LogWatcher) : LogWatcherAction → LogWatcher
  | LogWatcherAction.SeekToEnd => { w with readerPos := endPos }
  | LogWatcherAction.Finish => { w with finish := true }
  | LogWatcherAction.None => w

/-- Outcome of one iteration of the watch loop body: next state plus the
events delivered to the consumer, or a panic (a seek unwrap failed), or the
probe loop still retrying when its trace ran out. -/
inductive StepRes (σ : Type) where
  | next (w : LogWatcher) (s : σ) (evs : List (Except IoErr LogWatcherEvent))
  | panicked (evs : List (Except IoErr LogWatcherEvent))
  | hung (evs : List (Except IoErr LogWatcherEvent))

/-- One iteration of the body of LogWatcher.watch (the part after the finish
check), for consumer callback cb with consumer state s. -/
def watch_step {σ : Type} (cb : σ → Except IoErr LogWatcherEvent → LogWatcherAction × σ)
    (inp : IterIn) (w : LogWatcher) (s : σ) : StepRes σ :=
  match inp.readErr with
  | some e =>
      let r : Except IoErr LogWatcherEvent := Except.error e
      let p := cb s r
      match p.1, inp.seekOk with
      | LogWatcherAction.SeekToEnd, false => StepRes.panicked [r]
      | a, _ =>
          StepRes.next (handle_callback_action (inp.contents w.readerInode).length w a) p.2 [r]
  | none =>
      let content := inp.contents w.readerInode
      let rl := read_line content w.readerPos
      if 0 < rl.1 then
        if inp.seekOk then
          let w1 : LogWatcher := { w with pos := w.pos + rl.1, readerPos := w.pos + rl.1 }
          let ev : Except IoErr LogWatcherEvent :=
            Except.ok (LogWatcherEvent.Line (rl.2.filter (fun c => c != '\n')))
          let p := cb s ev
          StepRes.next (handle_callback_action (inp.contents w1.readerInode).length w1 p.1) p.2 [ev]
        else
          StepRes.panicked []
      else
        match reopen_if_log_rotated w inp.probes with
        | none => StepRes.hung []
        | some (w1, rotated, _) =>
            if rotated then
              let ev : Except IoErr LogWatcherEvent := Except.ok LogWatcherEvent.LogRotation
              let p := cb s ev
              let w2 := handle_callback_action (inp.contents w1.readerInode).length w1 p.1
              if inp.seekOk then
                StepRes.next { w2 with readerPos := w2.pos } p.2 [ev]
              else
                StepRes.panicked [ev]
            else
              if inp.seekOk then
                StepRes.next { w1 with readerPos := w1.pos } s []
              else
                StepRes.panicked []

/-- Outcome of a finite run of the watch loop: the loop is past the supplied
schedule (or broke out of it via finish), or it panicked, or it is stuck
inside the probe retry loop. -/
inductive RunOut (σ : Type) where
  | ok (w : LogWatcher) (s : σ)
  | panicked
  | hung
deriving DecidableEq

/-- Mirror of LogWatcher.watch run against a finite schedule of iteration
inputs: performs the finish check at the top of each iteration, then one
watch_step, accumulating every event delivered to the consumer. -/
def watch {σ : Type} (cb : σ → Except IoErr LogWatcherEvent → LogWatcherAction × σ) :
    List IterIn → LogWatcher → σ → List (Except IoErr LogWatcherEvent) × RunOut σ
  | [], w, s => ([], RunOut.ok w s)
  | inp :: rest, w, s =>
      if w.finish then ([], RunOut.ok w s)
      else
        match watch_step cb inp w s with
        | StepRes.next w' s' evs =>
            let out := watch cb rest w' s'
            (evs ++ out.1, out.2)
        | StepRes.panicked evs => (evs, RunOut.panicked)
        | StepRes.hung evs => (evs, RunOut.hung)

/-- Consumer that always returns the action None. -/
def cbNone : Unit → Except IoErr LogWatcherEvent → LogWatcherAction × Unit :=
  fun _ _ => (LogWatcherAction.None, ())

/-- Consumer that counts delivered items and returns Finish on the n-th. -/
def stopCb (n : Nat) : Nat → Except IoErr LogWatcherEvent → LogWatcherAction × Nat :=
  fun k _ => (if k + 1 = n then LogWatcherAction.Finish else LogWatcherAction.None, k + 1)

/-- Consumer that returns SeekToEnd in reaction to the first delivered item
and None afterwards. -/
def skipOnceCb : Nat → Except IoErr LogWatcherEvent → LogWatcherAction × Nat :=
  fun k _ => (if k = 0 then LogWatcherAction.SeekToEnd else LogWatcherAction.None, k + 1)

/-- Iteration input for a plain read with no I/O failures and no probing. -/
def readIter (c : Inode → List Char) : IterIn :=
  { readErr := none, contents := c, probes := [], seekOk := true }

/-- Schedule of n plain read iterations over the fixed contents c. -/
def readSched (c : Inode → List Char) (n : Nat) : List IterIn :=
  List.replicate n (readIter c)

/-- Concatenation of complete lines: each line followed by its newline. -/
def joinLines (ls : List (List Char)) : List Char :=
  (ls.map (fun l => l ++ ['\n'])).flatten

/-- State invariant from the spec: the cursor pos agrees with the reader
offset, and the stored inode is the identity of the file the reader handle
refers to. -/
def StateInv (w : LogWatcher) : Prop :=
  w.readerPos = w.pos ∧ w.readerInode = w.inode

instance : DecidablePred StateInv := fun w => by
  unfold StateInv; infer_instance

/-- True on probe open results that do not produce a usable handle: failed
opens and opens whose metadata call fails. -/
def isProbeFailure : OpenResult → Bool
  | OpenResult.err _ => true
  | OpenResult.okF _ m => !m

/-- Number of one-second sleeps the probe performs while traversing these
open results: one per NotFound open failure and one per metadata failure,
none for other open failures (in the source these fall through the match
arm and retry immediately). -/
def probeSleeps : List OpenResult → Nat
  | [] => 0
  | OpenResult.err nf :: rest => (if nf then 1 else 0) + probeSleeps rest
  | OpenResult.okF _ m :: rest => (if m then 0 else 1) + probeSleeps rest

theorem takeLine_append (l rest : List Char) (h : '\n' ∉ l) :
    takeLine (l ++ '\n' :: rest) = l ++ ['\n'] := by
  induction l with
  | nil => simp [takeLine]
  | cons c cs ih =>
      have hc : c ≠ '\n' := by intro hc; exact h (by simp [hc])
      simp only [List.cons_append, takeLine, if_neg hc, List.append_eq]
      rw [ih (fun hm => h (List.mem_cons_of_mem _ hm))]

theorem takeLine_no_newline (l : List Char) (h : '\n' ∉ l) : takeLine l = l := by
  induction l with
  | nil => rfl
  | cons c cs ih =>
      have hc : c ≠ '\n' := by intro hc; exact h (by simp [hc])
      simp only [takeLine, if_neg hc]
      rw [ih (fun hm => h (List.mem_cons_of_mem _ hm))]

theorem read_line_at (pre l rest : List Char) (h : '\n' ∉ l) :
    read_line (pre ++ (l ++ '\n' :: rest)) pre.length = (l.length + 1, l ++ ['\n']) := by
  unfold read_line
  rw [List.drop_left, takeLine_append l rest h]
  simp

theorem read_line_eof (c : List Char) (p : Nat) (h : c.length ≤ p) :
    read_line c p = (0, []) := by
  unfold read_line
  rw [List.drop_eq_nil_of_le h]
  rfl

theorem filter_line (l : List Char) (h : '\n' ∉ l) :
    (l ++ ['\n']).filter (fun c => c != '\n') = l := by
  rw [List.filter_append]
  have h1 : l.filter (fun c => c != '\n') = l :=
    List.filter_eq_self.mpr (fun a ha => by
      simp only [bne_iff_ne, ne_eq, decide_eq_true_eq]
      intro hb; rw [hb] at ha; exact h ha)
  have h2 : (['\n'] : List Char).filter (fun c => c != '\n') = [] := by decide
  rw [h1, h2, List.append_nil]

theorem handle_pos (n : Nat) (w : LogWatcher) (a : LogWatcherAction) :
    (handle_callback_action n w a).pos = w.pos := by
  cases a <;> rfl

theorem handle_inode (n : Nat) (w : LogWatcher) (a : LogWatcherAction) :
    (handle_callback_action n w a).inode = w.inode ∧
    (handle_callback_action n w a).readerInode = w.readerInode := by
  cases a <;> exact ⟨rfl, rfl⟩

theorem handle_finish (n : Nat) (w : LogWatcher) (a : LogWatcherAction)
    (h : a ≠ LogWatcherAction.Finish) :
    (handle_callback_action n w a).finish = w.finish := by
  cases a with
  | Finish => exact absurd rfl h
  | None => rfl
  | SeekToEnd => rfl

theorem handle_none (n : Nat) (w : LogWatcher) :
    handle_callback_action n w LogWatcherAction.None = w := rfl

theorem reopen_not_rotated (w : LogWatcher) (pr : List OpenResult) (w' : LogWatcher) :
    ∀ n, reopen_if_log_rotated w pr = some (w', false, n) → w' = w := by
  induction pr with
  | nil => intro n h; simp [reopen_if_log_rotated] at h
  | cons o rest ih =>
      intro n h
      cases o with
      | err nf =>
          simp only [reopen_if_log_rotated] at h
          cases hr : reopen_if_log_rotated w rest with
          | none => rw [hr] at h; simp at h
          | some v =>
              obtain ⟨w2, r2, n2⟩ := v
              rw [hr] at h
              simp only [Option.some.injEq, Prod.mk.injEq] at h
              obtain ⟨h1, h2, _⟩ := h
              exact ih n2 (by rw [hr, h1, h2])
      | okF i m =>
          simp only [reopen_if_log_rotated] at h
          by_cases hm : m
          · rw [if_pos hm] at h
            by_cases hi : i ≠ w.inode
            · rw [if_pos hi] at h; simp at h
            · rw [if_neg hi] at h
              simp only [Option.some.injEq, Prod.mk.injEq] at h
              exact h.1.symm ▸ rfl
          · rw [if_neg hm] at h
            cases hr : reopen_if_log_rotated w rest with
            | none => rw [hr] at h; simp at h
            | some v =>
                obtain ⟨w2, r2, n2⟩ := v
                rw [hr] at h
                simp only [Option.some.injEq, Prod.mk.injEq] at h
                obtain ⟨h1, h2, _⟩ := h
                exact ih n2 (by rw [hr, h1, h2])

theorem reopen_rotated (w : LogWatcher) (pr : List OpenResult) (w' : LogWatcher) :
    ∀ n, reopen_if_log_rotated w pr = some (w', true, n) →
      w'.pos = 0 ∧ w'.readerPos = 0 ∧ w'.readerInode = w'.inode ∧ w'.finish = w.finish := by
  induction pr with
  | nil => intro n h; simp [reopen_if_log_rotated] at h
  | cons o rest ih =>
      intro n h
      cases o with
      | err nf =>
          simp only [reopen_if_log_rotated] at h
          cases hr : reopen_if_log_rotated w rest with
          | none => rw [hr] at h; simp at h
          | some v =>
              obtain ⟨w2, r2, n2⟩ := v
              rw [hr] at h
              simp only [Option.some.injEq, Prod.mk.injEq] at h
              obtain ⟨h1, h2, _⟩ := h
              exact ih n2 (by rw [hr, h1, h2])
      | okF i m =>
          simp only [reopen_if_log_rotated] at h
          by_cases hm : m
          · rw [if_pos hm] at h
            by_cases hi : i ≠ w.inode
            · rw [if_pos hi] at h
              simp only [Option.some.injEq, Prod.mk.injEq] at h
              obtain ⟨h1, _, _⟩ := h
              subst h1
              exact ⟨rfl, rfl, rfl, rfl⟩
            · rw [if_neg hi] at h; simp at h
          · rw [if_neg hm] at h
            cases hr : reopen_if_log_rotated w rest with
            | none => rw [hr] at h; simp at h
            | some v =>
                obtain ⟨w2, r2, n2⟩ := v
                rw [hr] at h
                simp only [Option.some.injEq, Prod.mk.injEq] at h
                obtain ⟨h1, h2, _⟩ := h
                exact ih n2 (by rw [hr, h1, h2])

theorem watch_finished {σ : Type} (cb : σ → Except IoErr LogWatcherEvent → LogWatcherAction × σ)
    (sched : List IterIn) (w : LogWatcher) (s : σ) (h : w.finish = true) :
    watch cb sched w s = ([], RunOut.ok w s) := by
  cases sched with
  | nil => rfl
  | cons inp rest => simp [watch, h]

theorem watch_append {σ : Type} (cb : σ → Except IoErr LogWatcherEvent → LogWatcherAction × σ)
    (s1 s2 : List IterIn) (w : LogWatcher) (s : σ) :
    watch cb (s1 ++ s2) w s =
      match watch cb s1 w s with
      | (evs, RunOut.ok w' s') => (evs ++ (watch cb s2 w' s').1, (watch cb s2 w' s').2)
      | (evs, o) => (evs, o) := by
  induction s1 generalizing w s with
  | nil => simp [watch]
  | cons inp rest ih =>
      by_cases hf : w.finish = true
      · rw [show (inp :: rest) ++ s2 = inp :: (rest ++ s2) from rfl,
          watch_finished cb (inp :: (rest ++ s2)) w s hf,
          watch_finished cb (inp :: rest) w s hf]
        simp [watch_finished cb s2 w s hf]
      · rw [show (inp :: rest) ++ s2 = inp :: (rest ++ s2) from rfl]
        simp only [watch, Bool.not_eq_true] at *
        rw [if_neg (by simp [hf]), if_neg (by simp [hf])]
        cases hs : watch_step cb inp w s with
        | next w' s' evs =>
            simp only []
            rw [ih w' s']
            cases hw : watch cb rest w' s' with
            | mk evs2 o =>
                cases o <;> simp
        | panicked evs => simp
        | hung evs => simp

theorem joinLines_cons (l : List Char) (ls : List (List Char)) :
    joinLines (l :: ls) = l ++ '\n' :: joinLines ls := by
  simp [joinLines]

theorem joinLines_nil : joinLines [] = [] := rfl

theorem watch_step_read {σ : Type} (cb : σ → Except IoErr LogWatcherEvent → LogWatcherAction × σ)
    (c : Inode → List Char) (w : LogWatcher) (s : σ) (pre l rest : List Char)
    (hnl : '\n' ∉ l) (hc : c w.readerInode = pre ++ (l ++ '\n' :: rest))
    (hrp : w.readerPos = pre.length) :
    watch_step cb (readIter c) w s =
      StepRes.next
        (handle_callback_action (c w.readerInode).length
          { w with pos := w.pos + (l.length + 1), readerPos := w.pos + (l.length + 1) }
          (cb s (Except.ok (LogWatcherEvent.Line l))).1)
        (cb s (Except.ok (LogWatcherEvent.Line l))).2
        [Except.ok (LogWatcherEvent.Line l)] := by
  simp only [watch_step, readIter]
  rw [hrp, hc, read_line_at pre l rest hnl]
  simp only [Nat.lt_add_one_iff, Nat.zero_le, if_pos, filter_line l hnl]

theorem watch_step_eof_no_rot {σ : Type}
    (cb : σ → Except IoErr LogWatcherEvent → LogWatcherAction × σ)
    (inp : IterIn) (w : LogWatcher) (s : σ) (n : Nat)
    (hre : inp.readErr = none) (hseek : inp.seekOk = true)
    (heof : (inp.contents w.readerInode).length ≤ w.readerPos)
    (hpr : reopen_if_log_rotated w inp.probes = some (w, false, n)) :
    watch_step cb inp w s = StepRes.next { w with readerPos := w.pos } s [] := by
  simp only [watch_step, hre]
  rw [read_line_eof _ _ heof]
  simp only [Nat.lt_irrefl, if_neg, hpr, hseek]
  rfl

theorem watch_step_eof_rot {σ : Type}
    (cb : σ → Except IoErr LogWatcherEvent → LogWatcherAction × σ)
    (inp : IterIn) (w w1 : LogWatcher) (s : σ) (n : Nat)
    (hre : inp.readErr = none) (hseek : inp.seekOk = true)
    (heof : (inp.contents w.readerInode).length ≤ w.readerPos)
    (hpr : reopen_if_log_rotated w inp.probes = some (w1, true, n)) :
    watch_step cb inp w s =
      StepRes.next
        { handle_callback_action (inp.contents w1.readerInode).length w1
            (cb s (Except.ok LogWatcherEvent.LogRotation)).1 with
          readerPos :=
            (handle_callback_action (inp.contents w1.readerInode).length w1
              (cb s (Except.ok LogWatcherEvent.LogRotation)).1).pos }
        (cb s (Except.ok LogWatcherEvent.LogRotation)).2
        [Except.ok LogWatcherEvent.LogRotation] := by
  simp only [watch_step, hre]
  rw [read_line_eof _ _ heof]
  simp only [Nat.lt_irrefl, if_neg, hpr, hseek]
  rfl

theorem watch_cons_next {σ : Type}
    (cb : σ → Except IoErr LogWatcherEvent → LogWatcherAction × σ)
    (inp : IterIn) (rest : List IterIn) (w : LogWatcher) (s : σ)
    (w' : LogWatcher) (s' : σ) (evs : List (Except IoErr LogWatcherEvent))
    (hf : w.finish = false) (h : watch_step cb inp w s = StepRes.next w' s' evs) :
    watch cb (inp :: rest) w s
      = (evs ++ (watch cb rest w' s').1, (watch cb rest w' s').2) := by
  simp [watch, hf, h]

theorem watch_reads (c : Inode → List Char) :
    ∀ (ls : List (List Char)) (pre : List Char) (i ri : Inode),
      (∀ l ∈ ls, '\n' ∉ l) →
      c ri = pre ++ joinLines ls →
      watch cbNone (readSched c ls.length) ⟨i, pre.length, pre.length, ri, false⟩ () =
        (ls.map (fun l => Except.ok (LogWatcherEvent.Line l)),
         RunOut.ok ⟨i, pre.length + (joinLines ls).length,
           pre.length + (joinLines ls).length, ri, false⟩ ()) := by
  intro ls
  induction ls with
  | nil =>
      intro pre i ri hnl hc
      simp [readSched, watch, joinLines]
  | cons l rest ih =>
      intro pre i ri hnl hc
      have hnl0 : '\n' ∉ l := hnl l (by simp)
      have hcc : c ri = pre ++ (l ++ '\n' :: joinLines rest) := by
        rw [hc, joinLines_cons]
      have hstep2 : watch_step cbNone (readIter c) ⟨i, pre.length, pre.length, ri, false⟩ ()
          = StepRes.next ⟨i, pre.length + (l.length + 1), pre.length + (l.length + 1), ri, false⟩ ()
            [Except.ok (LogWatcherEvent.Line l)] := by
        rw [watch_step_read cbNone c ⟨i, pre.length, pre.length, ri, false⟩ () pre l
          (joinLines rest) hnl0 hcc rfl]
        rfl
      have hsched : readSched c (l :: rest).length = readIter c :: readSched c rest.length := by
        simp [readSched, List.replicate_succ]
      rw [hsched, watch_cons_next cbNone _ _ _ _ _ _ _ rfl hstep2]
      have ihc := ih (pre ++ (l ++ ['\n'])) i ri
        (fun x hx => hnl x (by simp [hx]))
        (by rw [hcc]; simp)
      have hlen : (pre ++ (l ++ ['\n'])).length = pre.length + (l.length + 1) := by
        simp
      rw [hlen] at ihc
      rw [ihc]
      simp [joinLines_cons]
      omega
theorem read_line_chunk (done chunk : List Char) (hnl : '\n' ∉ chunk) :
    read_line (done ++ chunk) done.length = (chunk.length, chunk) := by
  unfold read_line
  rw [List.drop_left, takeLine_no_newline chunk hnl]

def c3contents : Inode → List Char := fun _ => ['a', '\n', 'b', '\n']

def runFinished {σ : Type} : RunOut σ → Bool
  | RunOut.ok w _ => w.finish
  | RunOut.panicked => false
  | RunOut.hung => false

theorem rotation_probe_helper (w : LogWatcher) (i : Inode) (c : Inode → List Char)
    (hne : i ≠ w.inode) (heof : (c w.readerInode).length ≤ w.readerPos) :
    reopen_if_log_rotated w [OpenResult.okF i true] =
      some ({ w with pos := 0, readerPos := 0, inode := i, readerInode := i }, true, 0)
    ∧ watch_step cbNone
        { readErr := none, contents := c, probes := [OpenResult.okF i true], seekOk := true } w () =
      StepRes.next { w with pos := 0, readerPos := 0, inode := i, readerInode := i } ()
        [Except.ok LogWatcherEvent.LogRotation] := by
  have h1 : reopen_if_log_rotated w [OpenResult.okF i true] =
      some ({ w with pos := 0, readerPos := 0, inode := i, readerInode := i }, true, 0) := by
    simp [reopen_if_log_rotated, hne]
  refine ⟨h1, ?_⟩
  rw [watch_step_eof_rot cbNone _ w _ () 0 rfl rfl heof h1]
  simp [cbNone, handle_none]

/-- C6: when the probe opens the path and its identity differs from the stored
one, the cursor resets to zero, the handle and identity are replaced, and the
consumer receives exactly one LogRotation event in that iteration. -/
theorem rotation_adopts_new_file (w : LogWatcher) (i : Inode) (c : Inode → List Char)
    (hne : i ≠ w.inode) (heof : (c w.readerInode).length ≤ w.readerPos) :
    reopen_if_log_rotated w [OpenResult.okF i true] =
      some ({ w with pos := 0, readerPos := 0, inode := i, readerInode := i }, true, 0)
    ∧ watch_step cbNone
        { readErr := none, contents := c, probes := [OpenResult.okF i true], seekOk := true } w () =
      StepRes.next { w with pos := 0, readerPos := 0, inode := i, readerInode := i } ()
        [Except.ok LogWatcherEvent.LogRotation] :=
  rotation_probe_helper w i c hne heof

/-- C6 witness: rotation detection evaluated on one concrete probe. -/
theorem rotation_adopts_new_file_witness :
    reopen_if_log_rotated ⟨0, 2, 2, 0, false⟩ [OpenResult.okF 1 true] =
      some (⟨1, 0, 0, 1, false⟩, true, 0)
    ∧ watch_step cbNone
        { readErr := none, contents := fun _ => ['a', '\n'],
          probes := [OpenResult.okF 1 true], seekOk := true }
        ⟨0, 2, 2, 0, false⟩ ()
      = StepRes.next ⟨1, 0, 0, 1, false⟩ () [Except.ok LogWatcherEvent.LogRotation] :=
  rotation_adopts_new_file ⟨0, 2, 2, 0, false⟩ 1 (fun _ => ['a', '\n']) (by decide) (by decide)

/-- C7 counterexample: an open failure whose kind is not NotFound is retried
with zero sleeps, refuting the claim that every probe-open failure is retried
after the fixed one-second backoff. -/
theorem probe_retry_without_backoff :
    reopen_if_log_rotated ⟨0, 5, 5, 0, false⟩ [OpenResult.err false, OpenResult.okF 1 true]
      = some (⟨1, 0, 0, 1, false⟩, true, 0) := rfl

/-- C7 (amended): probe failures are never surfaced to the consumer and the
probe keeps retrying until an open with metadata succeeds; NotFound failures
and metadata failures sleep one second before retrying, while other open
failures retry immediately with no backoff. -/
theorem probe_never_surfaces (w : LogWatcher) (pr : List OpenResult) (i : Inode)
    (hfail : ∀ o ∈ pr, isProbeFailure o = true) (hne : i ≠ w.inode) :
    reopen_if_log_rotated w pr = none
    ∧ reopen_if_log_rotated w (pr ++ [OpenResult.okF i true]) =
        some ({ w with pos := 0, readerPos := 0, inode := i, readerInode := i }, true, probeSleeps pr)
    ∧ reopen_if_log_rotated w (pr ++ [OpenResult.okF w.inode true]) =
        some (w, false, probeSleeps pr + 1) := by
  induction pr with
  | nil =>
      refine ⟨rfl, ?_, ?_⟩
      · simp [reopen_if_log_rotated, hne, probeSleeps]
      · simp [reopen_if_log_rotated, probeSleeps]
  | cons o rest ih =>
      have hofail : isProbeFailure o = true := hfail o (by simp)
      have hrest : ∀ o ∈ rest, isProbeFailure o = true :=
        fun x hx => hfail x (by simp [hx])
      obtain ⟨ih1, ih2, ih3⟩ := ih hrest
      cases o with
      | err nf =>
          refine ⟨?_, ?_, ?_⟩
          · simp [reopen_if_log_rotated, ih1]
          · simp only [List.cons_append]
            simp [reopen_if_log_rotated, ih2, probeSleeps]
            try omega
          · simp only [List.cons_append]
            simp [reopen_if_log_rotated, ih3, probeSleeps]
            try omega
      | okF j m =>
          have hm : m = false := by
            simpa [isProbeFailure] using hofail
          subst hm
          refine ⟨?_, ?_, ?_⟩
          · simp [reopen_if_log_rotated, ih1]
          · simp only [List.cons_append]
            simp [reopen_if_log_rotated, ih2, probeSleeps]
            try omega
          · simp only [List.cons_append]
            simp [reopen_if_log_rotated, ih3, probeSleeps]
            try omega

/-- C8: a failing line read delivers the error value unmodified to the
consumer, applies the returned action, leaves the cursor pos unchanged, and
the loop continues with the next iteration. -/
theorem read_error_forwarded {σ : Type}
    (cb : σ → Except IoErr LogWatcherEvent → LogWatcherAction × σ)
    (w : LogWatcher) (s : σ) (e : IoErr) (c : Inode → List Char) (pr : List OpenResult) :
    watch_step cb { readErr := some e, contents := c, probes := pr, seekOk := true } w s =
      StepRes.next (handle_callback_action (c w.readerInode).length w (cb s (Except.error e)).1)
        (cb s (Except.error e)).2 [Except.error e]
    ∧ (handle_callback_action (c w.readerInode).length w (cb s (Except.error e)).1).pos = w.pos := by
  constructor
  · cases ha : (cb s (Except.error e)).1 <;>
      simp [watch_step, ha]
  · exact handle_pos _ _ _

/-- C9: registration on a readable file captures its identity and sets both
the cursor and the reader offset to the current length, so a subsequent poll
over unchanged content delivers nothing; a failing open is returned to the
caller unchanged. -/
theorem register_starts_at_end (i : Inode) (c : List Char) (e : IoErr) :
    register (Except.ok (i, c)) =
      Except.ok { inode := i, pos := c.length, readerPos := c.length,
                  readerInode := i, finish := false }
    ∧ register (Except.error e) = Except.error e
    ∧ (watch cbNone
        [{ readErr := none, contents := fun _ => c, probes := [OpenResult.okF i true], seekOk := true }]
        { inode := i, pos := c.length, readerPos := c.length, readerInode := i, finish := false }
        ()).1 = [] := by
  refine ⟨rfl, rfl, ?_⟩
  have hpr : reopen_if_log_rotated
      { inode := i, pos := c.length, readerPos := c.length, readerInode := i, finish := false }
      [OpenResult.okF i true] =
      some ({ inode := i, pos := c.length, readerPos := c.length, readerInode := i, finish := false },
        false, 1) := by
    simp [reopen_if_log_rotated]
  have hstep := watch_step_eof_no_rot (σ := Unit) cbNone
      { readErr := none, contents := fun _ => c, probes := [OpenResult.okF i true], seekOk := true }
      { inode := i, pos := c.length, readerPos := c.length, readerInode := i, finish := false } () 1
      rfl rfl (by simp) hpr
  simp [watch, hstep]

/-- C10: a read at end of file that returns a non-empty chunk with no trailing
newline is delivered immediately as a Line event and the cursor advances past
it, so one logical line appended in several pieces is delivered as several
Line events, as the concrete two-piece run shows. -/
theorem partial_chunk_delivered (w : LogWatcher) (c : Inode → List Char) (done chunk : List Char)
    (hne : chunk ≠ []) (hnl : '\n' ∉ chunk)
    (hc : c w.readerInode = done ++ chunk) (hrp : w.readerPos = done.length) :
    watch_step cbNone (readIter c) w () =
      StepRes.next { w with pos := w.pos + chunk.length, readerPos := w.pos + chunk.length } ()
        [Except.ok (LogWatcherEvent.Line chunk)]
    ∧ (watch cbNone [readIter (fun _ => ['a']), readIter (fun _ => ['a', 'b', '\n'])]
        ⟨0, 0, 0, 0, false⟩ ()).1
      = [Except.ok (LogWatcherEvent.Line ['a']), Except.ok (LogWatcherEvent.Line ['b'])] := by
  constructor
  · have hlen : 0 < chunk.length := List.length_pos.mpr hne
    simp only [watch_step, readIter]
    rw [hrp, hc, read_line_chunk done chunk hnl]
    simp only [hlen, if_pos]
    rw [List.filter_eq_self.mpr (fun a ha => by
      simp only [bne_iff_ne, ne_eq, decide_eq_true_eq]
      intro hb; rw [hb] at ha; exact hnl ha)]
    rfl
  · rfl

/-- C3: the recorded code bug: after a consumer returns SeekToEnd with one
unread line pending, the source leaves pos untouched and the next probe seeks
the reader back to pos, so the supposedly discarded line is still delivered.
The run below delivers both lines although SeekToEnd was returned after the
first one. -/
theorem seek_to_end_skipped_line_still_delivered :
    (watch skipOnceCb
      [readIter c3contents,
       { readErr := none, contents := c3contents, probes := [OpenResult.okF 0 true], seekOk := true },
       readIter c3contents]
      ⟨0, 0, 0, 0, false⟩ 0).1
    = [Except.ok (LogWatcherEvent.Line ['a']), Except.ok (LogWatcherEvent.Line ['b'])] := rfl



theorem handle_readerPos (n : Nat) (w : LogWatcher) (a : LogWatcherAction)
    (h : a ≠ LogWatcherAction.SeekToEnd) :
    (handle_callback_action n w a).readerPos = w.readerPos := by
  cases a with
  | SeekToEnd => exact absurd rfl h
  | Finish => rfl
  | None => rfl

theorem step_no_panic {σ : Type}
    (cb : σ → Except IoErr LogWatcherEvent → LogWatcherAction × σ)
    (inp : IterIn) (w : LogWatcher) (s : σ) (hsk : inp.seekOk = true)
    (evs : List (Except IoErr LogWatcherEvent)) :
    watch_step cb inp w s ≠ StepRes.panicked evs := by
  intro h
  cases he : inp.readErr with
  | some e =>
      cases ha : (cb s (Except.error e)).1 <;>
        simp [watch_step, he, ha, hsk] at h
  | none =>
      by_cases h0 : 0 < (read_line (inp.contents w.readerInode) w.readerPos).1
      · simp [watch_step, he, h0, hsk] at h
      · cases hpr : reopen_if_log_rotated w inp.probes with
        | none => simp [watch_step, he, h0, hsk, hpr] at h
        | some v =>
            obtain ⟨w1, rot, n⟩ := v
            cases rot <;> simp [watch_step, he, h0, hsk, hpr] at h

theorem step_next_finish {σ : Type}
    (cb : σ → Except IoErr LogWatcherEvent → LogWatcherAction × σ)
    (hcb : ∀ t r, (cb t r).1 ≠ LogWatcherAction.Finish)
    (inp : IterIn) (w : LogWatcher) (s : σ) (w' : LogWatcher) (s' : σ)
    (evs : List (Except IoErr LogWatcherEvent))
    (h : watch_step cb inp w s = StepRes.next w' s' evs) : w'.finish = w.finish := by
  cases he : inp.readErr with
  | some e =>
      cases ha : (cb s (Except.error e)).1 with
      | Finish => exact absurd ha (hcb s _)
      | None =>
          cases hsk : inp.seekOk <;>
          · simp only [watch_step, he, ha, hsk, StepRes.next.injEq] at h
            obtain ⟨hw, _, _⟩ := h
            subst hw
            exact handle_finish _ _ _ (by simp)
      | SeekToEnd =>
          cases hsk : inp.seekOk with
          | false => simp [watch_step, he, ha, hsk] at h
          | true =>
              simp only [watch_step, he, ha, hsk, StepRes.next.injEq] at h
              obtain ⟨hw, _, _⟩ := h
              subst hw
              exact handle_finish _ _ _ (by simp)
  | none =>
      cases hsk : inp.seekOk with
      | false =>
          by_cases h0 : 0 < (read_line (inp.contents w.readerInode) w.readerPos).1
          · simp [watch_step, he, h0, hsk] at h
          · cases hpr : reopen_if_log_rotated w inp.probes with
            | none => simp [watch_step, he, h0, hsk, hpr] at h
            | some v =>
                obtain ⟨w1, rot, n⟩ := v
                cases rot <;> simp [watch_step, he, h0, hsk, hpr] at h
      | true =>
          by_cases h0 : 0 < (read_line (inp.contents w.readerInode) w.readerPos).1
          · simp only [watch_step, he, h0, hsk, if_pos, if_true] at h
            simp only [StepRes.next.injEq] at h
            obtain ⟨hw, _, _⟩ := h
            subst hw
            exact handle_finish _ _ _ (hcb s _)
          · cases hpr : reopen_if_log_rotated w inp.probes with
            | none => simp [watch_step, he, h0, hsk, hpr] at h
            | some v =>
                obtain ⟨w1, rot, n⟩ := v
                cases rot with
                | true =>
                    simp only [watch_step, he, h0, hsk, hpr, if_false, if_true,
                      StepRes.next.injEq] at h
                    obtain ⟨hw, _, _⟩ := h
                    subst hw
                    rw [handle_finish _ _ _ (hcb s _)]
                    exact (reopen_rotated w inp.probes w1 n hpr).2.2.2
                | false =>
                    simp only [watch_step, he, h0, hsk, hpr, Bool.false_eq_true, if_false, if_true,
                      StepRes.next.injEq] at h
                    obtain ⟨hw, _, _⟩ := h
                    subst hw
                    rw [reopen_not_rotated w inp.probes w1 n hpr]


theorem state_inv_step {σ : Type}
    (cb : σ → Except IoErr LogWatcherEvent → LogWatcherAction × σ)
    (hcb : ∀ t r, (cb t r).1 ≠ LogWatcherAction.SeekToEnd)
    (inp : IterIn) (w : LogWatcher) (s : σ) (w' : LogWatcher) (s' : σ)
    (evs : List (Except IoErr LogWatcherEvent))
    (h : watch_step cb inp w s = StepRes.next w' s' evs) (hinv : StateInv w) :
    StateInv w' := by
  obtain ⟨hinv1, hinv2⟩ := hinv
  cases he : inp.readErr with
  | some e =>
      cases ha : (cb s (Except.error e)).1 with
      | SeekToEnd => exact absurd ha (hcb s _)
      | None =>
          cases hsk : inp.seekOk <;>
          · simp only [watch_step, he, ha, hsk, StepRes.next.injEq] at h
            obtain ⟨hw, _, _⟩ := h
            subst hw
            exact ⟨hinv1, hinv2⟩
      | Finish =>
          cases hsk : inp.seekOk <;>
          · simp only [watch_step, he, ha, hsk, StepRes.next.injEq] at h
            obtain ⟨hw, _, _⟩ := h
            subst hw
            exact ⟨hinv1, hinv2⟩
  | none =>
      cases hsk : inp.seekOk with
      | false =>
          by_cases h0 : 0 < (read_line (inp.contents w.readerInode) w.readerPos).1
          · simp [watch_step, he, h0, hsk] at h
          · cases hpr : reopen_if_log_rotated w inp.probes with
            | none => simp [watch_step, he, h0, hsk, hpr] at h
            | some v =>
                obtain ⟨w1, rot, n⟩ := v
                cases rot <;> simp [watch_step, he, h0, hsk, hpr] at h
      | true =>
          by_cases h0 : 0 < (read_line (inp.contents w.readerInode) w.readerPos).1
          · simp only [watch_step, he, h0, hsk, if_pos, if_true, StepRes.next.injEq] at h
            obtain ⟨hw, _, _⟩ := h
            subst hw
            constructor
            · rw [handle_readerPos _ _ _ (hcb s _), handle_pos]
            · rw [(handle_inode _ _ _).1, (handle_inode _ _ _).2]
              exact hinv2
          · cases hpr : reopen_if_log_rotated w inp.probes with
            | none => simp [watch_step, he, h0, hsk, hpr] at h
            | some v =>
                obtain ⟨w1, rot, n⟩ := v
                cases rot with
                | true =>
                    simp only [watch_step, he, h0, hsk, hpr, if_false, if_true,
                      StepRes.next.injEq] at h
                    obtain ⟨hw, _, _⟩ := h
                    subst hw
                    obtain ⟨hp0, hrp0, hri, hfin⟩ := reopen_rotated w inp.probes w1 n hpr
                    constructor
                    · rfl
                    · rw [(handle_inode _ _ _).1, (handle_inode _ _ _).2]
                      exact hri
                | false =>
                    simp only [watch_step, he, h0, hsk, hpr, Bool.false_eq_true, if_false, if_true,
                      StepRes.next.injEq] at h
                    obtain ⟨hw, _, _⟩ := h
                    subst hw
                    rw [reopen_not_rotated w inp.probes w1 n hpr]
                    exact ⟨rfl, hinv2⟩


/-- C4 counterexample: applying the consumer action SeekToEnd on a state with
unread bytes moves the reader to end of file without updating pos, so the
cursor and the handle no longer agree: the invariant fails after that step. -/
theorem state_inv_broken_by_seek_to_end :
    StateInv ⟨0, 0, 0, 0, false⟩ ∧
    watch_step (fun (t : Unit) _ => (LogWatcherAction.SeekToEnd, t))
        { readErr := some 7, contents := c3contents, probes := [], seekOk := true }
        ⟨0, 0, 0, 0, false⟩ ()
      = StepRes.next ⟨0, 0, 4, 0, false⟩ () [Except.error 7] ∧
    ¬ StateInv ⟨0, 0, 4, 0, false⟩ :=
  ⟨⟨rfl, rfl⟩, rfl, by decide⟩

/-- C4 (amended): registration establishes the cursor and identity invariant,
and every iteration of the watch loop whose consumer never returns SeekToEnd
preserves it; SeekToEnd itself breaks the cursor half of the invariant. -/
theorem state_inv_preserved {σ : Type}
    (cb : σ → Except IoErr LogWatcherEvent → LogWatcherAction × σ)
    (hcb : ∀ t r, (cb t r).1 ≠ LogWatcherAction.SeekToEnd) :
    (∀ (i : Inode) (c : List Char) (w0 : LogWatcher),
        register (Except.ok (i, c)) = Except.ok w0 → StateInv w0)
    ∧ (∀ (inp : IterIn) (w : LogWatcher) (s : σ) (w' : LogWatcher) (s' : σ)
        (evs : List (Except IoErr LogWatcherEvent)),
        watch_step cb inp w s = StepRes.next w' s' evs → StateInv w → StateInv w') := by
  constructor
  · intro i c w0 h
    simp only [register, Except.ok.injEq] at h
    subst h
    exact ⟨rfl, rfl⟩
  · intro inp w s w' s' evs h hinv
    exact state_inv_step cb hcb inp w s w' s' evs h hinv

/-- C4 witness: the invariant carried through one concrete read iteration. -/
theorem state_inv_preserved_witness : StateInv ⟨0, 2, 2, 0, false⟩ :=
  (state_inv_preserved cbNone (fun t r => by simp [cbNone])).2
    (readIter c3contents) ⟨0, 0, 0, 0, false⟩ () ⟨0, 2, 2, 0, false⟩ ()
    [Except.ok (LogWatcherEvent.Line ['a'])] rfl ⟨rfl, rfl⟩

/-- C5 counterexample: the seek after a successful read unwraps its result, so
a failing seek panics and the loop aborts although the consumer never returned
Finish: an error condition other than Stop terminates the loop. -/
theorem seek_failure_aborts_loop :
    watch cbNone [{ readErr := none, contents := c3contents, probes := [], seekOk := false }]
      ⟨0, 0, 0, 0, false⟩ () = ([], RunOut.panicked) := rfl

/-- C5 (amended): when every seek succeeds, no read failure or probe outcome
panics the loop, and with a consumer that never returns Finish the loop never
reaches a finished state: termination is solely consumer-driven, except for
the seek unwrap panics exhibited by the counterexample. -/
theorem loop_never_aborts {σ : Type}
    (cb : σ → Except IoErr LogWatcherEvent → LogWatcherAction × σ)
    (sched : List IterIn) (w : LogWatcher) (s : σ)
    (hseek : ∀ inp ∈ sched, inp.seekOk = true)
    (hcb : ∀ t r, (cb t r).1 ≠ LogWatcherAction.Finish)
    (hfin : w.finish = false) :
    (watch cb sched w s).2 ≠ RunOut.panicked
    ∧ runFinished (watch cb sched w s).2 = false := by
  have main : ∀ (sch : List IterIn), (∀ inp ∈ sch, inp.seekOk = true) →
      ∀ (w : LogWatcher) (s : σ), w.finish = false →
      (watch cb sch w s).2 ≠ RunOut.panicked
      ∧ runFinished (watch cb sch w s).2 = false := by
    intro sch
    induction sch with
    | nil =>
        intro _ w1 s1 hf
        refine ⟨by simp [watch], ?_⟩
        simp [watch, runFinished, hf]
    | cons inp rest ih =>
        intro hsk w1 s1 hf
        have hskh : inp.seekOk = true := hsk inp (by simp)
        have hskt : ∀ j ∈ rest, j.seekOk = true := fun j hj => hsk j (by simp [hj])
        cases hst : watch_step cb inp w1 s1 with
        | next w2 s2 evs =>
            have hf2 : w2.finish = false := by
              rw [step_next_finish cb hcb inp w1 s1 w2 s2 evs hst]
              exact hf
            have := ih hskt w2 s2 hf2
            simpa [watch, hf, hst] using this
        | panicked evs => exact absurd hst (step_no_panic cb inp w1 s1 hskh evs)
        | hung evs =>
            refine ⟨?_, ?_⟩ <;> simp [watch, hf, hst, runFinished]
  exact main sched hseek w s hfin

/-- C5 witness: the no-abort property on one concrete read iteration. -/
theorem loop_never_aborts_witness :
    (watch cbNone [readIter c3contents] ⟨0, 0, 0, 0, false⟩ ()).2 ≠ RunOut.panicked
    ∧ runFinished (watch cbNone [readIter c3contents] ⟨0, 0, 0, 0, false⟩ ()).2 = false :=
  loop_never_aborts cbNone [readIter c3contents] ⟨0, 0, 0, 0, false⟩ ()
    (by intro inp h; rw [List.mem_singleton] at h; subst h; rfl)
    (fun t r => by simp [cbNone]) rfl


theorem watch_append_ok {σ : Type}
    (cb : σ → Except IoErr LogWatcherEvent → LogWatcherAction × σ)
    (s1 s2 : List IterIn) (w : LogWatcher) (s : σ)
    (evs : List (Except IoErr LogWatcherEvent)) (w' : LogWatcher) (s' : σ)
    (h : watch cb s1 w s = (evs, RunOut.ok w' s')) :
    watch cb (s1 ++ s2) w s = (evs ++ (watch cb s2 w' s').1, (watch cb s2 w' s').2) := by
  rw [watch_append cb s1 s2 w s, h]

/-- C1: for arbitrary pre-existing content and arbitrary newline-free line lists,
writing the first list of complete lines, rotating the path to a different inode,
then writing the second list to the new file makes the consumer observe exactly
the first Line events in write order, then exactly one LogRotation event, then
the second Line events in write order; no Line event of the new file comes
before the rotation event. -/
theorem rotation_law (pre : List Char) (ls1 ls2 : List (List Char)) (a b : Inode)
    (w0 : LogWatcher) (hne : b ≠ a)
    (h1 : ∀ l ∈ ls1, '\n' ∉ l) (h2 : ∀ l ∈ ls2, '\n' ∉ l)
    (hreg : register (Except.ok (a, pre)) = Except.ok w0) :
    watch cbNone
      (readSched (fun _ => pre ++ joinLines ls1) ls1.length
        ++ [{ readErr := none, contents := fun _ => pre ++ joinLines ls1,
              probes := [OpenResult.okF b true], seekOk := true }]
        ++ readSched (fun _ => joinLines ls2) ls2.length)
      w0 ()
    = (ls1.map (fun l => Except.ok (LogWatcherEvent.Line l))
        ++ [Except.ok LogWatcherEvent.LogRotation]
        ++ ls2.map (fun l => Except.ok (LogWatcherEvent.Line l)),
       RunOut.ok ⟨b, (joinLines ls2).length, (joinLines ls2).length, b, false⟩ ()) := by
  simp only [register, Except.ok.injEq] at hreg
  subst hreg
  have hph1 := watch_reads (fun _ => pre ++ joinLines ls1) ls1 pre a a h1 rfl
  have hrs : watch_step cbNone
      { readErr := none, contents := fun _ => pre ++ joinLines ls1,
        probes := [OpenResult.okF b true], seekOk := true }
      ⟨a, pre.length + (joinLines ls1).length, pre.length + (joinLines ls1).length, a, false⟩ ()
      = StepRes.next ⟨b, 0, 0, b, false⟩ () [Except.ok LogWatcherEvent.LogRotation] := by
    rw [(rotation_probe_helper
      ⟨a, pre.length + (joinLines ls1).length, pre.length + (joinLines ls1).length, a, false⟩
      b (fun _ => pre ++ joinLines ls1) hne (by simp)).2]
  have hrot : watch cbNone
      [{ readErr := none, contents := fun _ => pre ++ joinLines ls1,
         probes := [OpenResult.okF b true], seekOk := true }]
      ⟨a, pre.length + (joinLines ls1).length, pre.length + (joinLines ls1).length, a, false⟩ ()
      = ([Except.ok LogWatcherEvent.LogRotation], RunOut.ok ⟨b, 0, 0, b, false⟩ ()) := by
    rw [watch_cons_next cbNone _ [] _ () _ _ _ rfl hrs]
    simp [watch]
  have hph2 := watch_reads (fun _ => joinLines ls2) ls2 [] b b h2 (by simp)
  simp only [List.length_nil] at hph2
  rw [List.append_assoc]
  rw [watch_append_ok cbNone _ _ _ _ _ _ _ hph1]
  rw [watch_append_ok cbNone _ _ _ _ _ _ _ hrot]
  rw [hph2]
  simp

/-- C1 witness: the rotation law evaluated with one line before and one line
after the rotation, from a registration on an empty file. -/
theorem rotation_law_witness :
    watch cbNone
      (readSched (fun _ => ['a', '\n']) 1
        ++ [{ readErr := none, contents := fun _ => ['a', '\n'],
              probes := [OpenResult.okF 1 true], seekOk := true }]
        ++ readSched (fun _ => ['b', '\n']) 1)
      ⟨0, 0, 0, 0, false⟩ ()
    = ([Except.ok (LogWatcherEvent.Line ['a']), Except.ok LogWatcherEvent.LogRotation,
        Except.ok (LogWatcherEvent.Line ['b'])],
       RunOut.ok ⟨1, 2, 2, 1, false⟩ ()) :=
  rotation_law [] [['a']] [['b']] 0 1 ⟨0, 0, 0, 0, false⟩ (by decide) (by decide) (by decide) rfl

theorem watch_reads_stop (c : Inode → List Char) (N : Nat) :
    ∀ (ls : List (List Char)) (k : Nat) (pre : List Char) (i ri : Inode) (extra : List IterIn),
      k + ls.length = N → ls ≠ [] →
      (∀ l ∈ ls, '\n' ∉ l) →
      c ri = pre ++ joinLines ls →
      (watch (stopCb N) (readSched c ls.length ++ extra)
          ⟨i, pre.length, pre.length, ri, false⟩ k).1
        = ls.map (fun l => Except.ok (LogWatcherEvent.Line l)) := by
  intro ls
  induction ls with
  | nil =>
      intro k pre i ri extra hk hne
      exact absurd rfl hne
  | cons l rest ih =>
      intro k pre i ri extra hk hne hnl hc
      have hnl0 : '\n' ∉ l := hnl l (by simp)
      have hcc : c ri = pre ++ (l ++ '\n' :: joinLines rest) := by
        rw [hc, joinLines_cons]
      have hstep := watch_step_read (stopCb N) c ⟨i, pre.length, pre.length, ri, false⟩ k pre l
        (joinLines rest) hnl0 hcc rfl
      cases rest with
      | nil =>
          have hkN : k + 1 = N := by simpa using hk
          have hstep2 : watch_step (stopCb N) (readIter c)
              ⟨i, pre.length, pre.length, ri, false⟩ k
              = StepRes.next
                  ⟨i, pre.length + (l.length + 1), pre.length + (l.length + 1), ri, true⟩ (k + 1)
                  [Except.ok (LogWatcherEvent.Line l)] := by
            rw [hstep]
            simp [stopCb, hkN, handle_callback_action]
          have hsched : readSched c ([l] : List (List Char)).length ++ extra
              = readIter c :: ([] ++ extra) := by
            simp [readSched]
          rw [hsched, watch_cons_next (stopCb N) _ _ _ _ _ _ _ rfl hstep2,
            watch_finished (stopCb N) ([] ++ extra) _ _ rfl]
          simp
      | cons r rs =>
          have hkN : ¬ (k + 1 = N) := by
            simp only [List.length_cons] at hk
            omega
          have hstep2 : watch_step (stopCb N) (readIter c)
              ⟨i, pre.length, pre.length, ri, false⟩ k
              = StepRes.next
                  ⟨i, pre.length + (l.length + 1), pre.length + (l.length + 1), ri, false⟩ (k + 1)
                  [Except.ok (LogWatcherEvent.Line l)] := by
            rw [hstep]
            simp [stopCb, hkN, handle_callback_action]
          have hsched : readSched c (l :: r :: rs).length ++ extra
              = readIter c :: (readSched c (r :: rs).length ++ extra) := by
            simp [readSched, List.replicate_succ]
          rw [hsched, watch_cons_next (stopCb N) _ _ _ _ _ _ _ rfl hstep2]
          have ihc := ih (k + 1) (pre ++ (l ++ ['\n'])) i ri extra
            (by simp only [List.length_cons] at hk ⊢; omega)
            (by simp)
            (fun x hx => hnl x (by simp [hx]))
            (by rw [hcc]; simp)
          have hlen : (pre ++ (l ++ ['\n'])).length = pre.length + (l.length + 1) := by
            simp
          rw [hlen] at ihc
          simp only [ihc]
          simp

/-- C2: appending complete newline-terminated lines after registration and
having the consumer return Finish on the last event delivers exactly those
Line events, newline stripped, in write order, whatever schedule follows. -/
theorem lines_until_stop (pre : List Char) (ls : List (List Char)) (extra : List IterIn)
    (a : Inode) (w0 : LogWatcher)
    (hnil : ls ≠ []) (hnl : ∀ l ∈ ls, '\n' ∉ l)
    (hreg : register (Except.ok (a, pre)) = Except.ok w0) :
    (watch (stopCb ls.length)
        (readSched (fun _ => pre ++ joinLines ls) ls.length ++ extra) w0 0).1
      = ls.map (fun l => Except.ok (LogWatcherEvent.Line l)) := by
  simp only [register, Except.ok.injEq] at hreg
  subst hreg
  exact watch_reads_stop (fun _ => pre ++ joinLines ls) ls.length ls 0 pre a a extra
    (by simp) hnil hnl rfl

/-- C2 witness: two lines delivered then Stop, with a further pending line in
the schedule that is not delivered. -/
theorem lines_until_stop_witness :
    (watch (stopCb 2)
        (readSched (fun _ => ['a', '\n', 'b', '\n']) 2
          ++ [readIter (fun _ => ['a', '\n', 'b', '\n', 'c', '\n'])])
        ⟨0, 0, 0, 0, false⟩ 0).1
      = [Except.ok (LogWatcherEvent.Line ['a']), Except.ok (LogWatcherEvent.Line ['b'])] :=
  lines_until_stop [] [['a'], ['b']] [readIter (fun _ => ['a', '\n', 'b', '\n', 'c', '\n'])]
    0 ⟨0, 0, 0, 0, false⟩ (by decide) (by decide) rfl


/-- C7 witness: the amended probe behaviour on a concrete failure trace. -/
theorem probe_never_surfaces_witness :
    reopen_if_log_rotated ⟨0, 5, 5, 0, false⟩ [OpenResult.err true, OpenResult.okF 2 false] = none
    ∧ reopen_if_log_rotated ⟨0, 5, 5, 0, false⟩
        ([OpenResult.err true, OpenResult.okF 2 false] ++ [OpenResult.okF 1 true]) =
        some (⟨1, 0, 0, 1, false⟩, true,
          probeSleeps [OpenResult.err true, OpenResult.okF 2 false])
    ∧ reopen_if_log_rotated ⟨0, 5, 5, 0, false⟩
        ([OpenResult.err true, OpenResult.okF 2 false] ++ [OpenResult.okF 0 true]) =
        some (⟨0, 5, 5, 0, false⟩, false,
          probeSleeps [OpenResult.err true, OpenResult.okF 2 false] + 1) :=
  probe_never_surfaces ⟨0, 5, 5, 0, false⟩ [OpenResult.err true, OpenResult.okF 2 false] 1
    (by decide) (by decide)

/-- C10 witness: the chunk delivery evaluated on a one-character chunk. -/
theorem partial_chunk_delivered_witness :
    watch_step cbNone (readIter (fun _ => ['x'])) ⟨0, 0, 0, 0, false⟩ ()
      = StepRes.next ⟨0, 1, 1, 0, false⟩ () [Except.ok (LogWatcherEvent.Line ['x'])]
    ∧ (watch cbNone [readIter (fun _ => ['a']), readIter (fun _ => ['a', 'b', '\n'])]
        ⟨0, 0, 0, 0, false⟩ ()).1
      = [Except.ok (LogWatcherEvent.Line ['a']), Except.ok (LogWatcherEvent.Line ['b'])] :=
  partial_chunk_delivered ⟨0, 0, 0, 0, false⟩ (fun _ => ['x']) [] ['x']
    (by decide) (by decide) rfl rfl

end Logwatcher2
